import Mathlib

/-!
Shallow embedding of `internal/sps/main.go` from mcartmell/spotify-playlist-sync.

Strings are Lean `String`; the Go standard-library string helpers used by the
code (`strings.Split`, `strings.HasSuffix`, `strings.HasPrefix`,
`strings.Contains`, `regexp.ReplaceAllString`) are embedded below as
executable functions on `List Char`. Network calls are parameters: a Spotify
search returns a list of `SpotifyAlbumItem`, fetching the tracks of an album
URL is a function `String → List String`, and the Discogs master-release year
lookup is a function `String → String`. The third-party fuzzy matcher
`strutil.Similarity _ _ > 0.8` (`areStringsSimilar`) is an abstract parameter
`sim : String → String → Bool`. A Go runtime panic (out-of-range slice index)
is modelled by `Option`: `none` is a panic.
-/

namespace SPS

/-- Embedding of Go `strings.HasSuffix s suffix` (used at main.go:387,391). -/
def goEndsWith (s suffix : String) : Bool :=
  suffix.data.isSuffixOf s.data

/-- Embedding of Go `strings.HasPrefix s pre` (used at main.go:290). -/
def goStartsWith (s pre : String) : Bool :=
  pre.data.isPrefixOf s.data

/-- Infix (substring) test on char lists, the semantics of Go
`strings.Contains` at main.go:399. -/
def isInfixOfCL (sub : List Char) : List Char → Bool
  | [] => sub.isEmpty
  | c :: cs => sub.isPrefixOf (c :: cs) || isInfixOfCL sub cs

/-- Embedding of Go `strings.Contains s sub` (used at main.go:399). -/
def goContains (s sub : String) : Bool :=
  isInfixOfCL sub.data s.data

/-- Fuel-indexed splitter on a nonempty separator, the semantics of Go
`strings.Split` with a nonempty separator: cut at each non-overlapping
leftmost occurrence of the separator. The fuel is the list length; each step
consumes at least one character, so the fuel never runs out when started at
the list length. -/
def splitSepAux (sep : List Char) : Nat → List Char → List Char → List (List Char)
  | _, [], acc => [acc.reverse]
  | 0, l, acc => [acc.reverse ++ l]
  | Nat.succ f, c :: cs, acc =>
    if sep.isPrefixOf (c :: cs) then
      acc.reverse :: splitSepAux sep f ((c :: cs).drop sep.length) []
    else
      splitSepAux sep f cs (c :: acc)

/-- Embedding of Go `strings.Split(s, sep)` for a nonempty separator. -/
def goSplitOn (s sep : String) : List String :=
  (splitSepAux sep.data s.data.length s.data []).map fun l => ⟨l⟩

/-- Embedding of Go `strings.Split(s, " - ")` (main.go:284). -/
def goSplitDash (s : String) : List String :=
  goSplitOn s " - "

/-- Embedding of Go `strings.Split(s, ",")` (main.go:533). -/
def goSplitComma (s : String) : List String :=
  goSplitOn s ","

/-- The RE2 character class `\s` of the regex at main.go:427. -/
def isSpaceGo (c : Char) : Bool :=
  c == ' ' || c == '\t' || c == '\n' || c == '\x0c' || c == '\r'

/-- Match of the regex `\s\(\d+\)` (main.go:427) at the head of the list:
a whitespace char, a literal open paren, a maximal nonempty digit run, a
literal close paren. Returns the remainder after the match, or `none` when
the pattern does not match at the head. -/
def matchAt : List Char → Option (List Char)
  | c0 :: '(' :: rest =>
    if isSpaceGo c0 then
      match rest.dropWhile Char.isDigit with
      | ')' :: tail => if (rest.takeWhile Char.isDigit).isEmpty then none else some tail
      | _ => none
    else none
  | _ => none

/-- Fuel-indexed scanner for `regexp.ReplaceAllString(title, "")` with the
regex `\s\(\d+\)` (main.go:427-428): delete each leftmost match and resume
after its end. The fuel is the list length; each step consumes at least one
character, so the fuel never runs out when started at the list length. -/
def stripParenGo : Nat → List Char → List Char
  | _, [] => []
  | 0, l => l
  | Nat.succ f, c :: cs =>
    match matchAt (c :: cs) with
    | some tail => stripParenGo f tail
    | none => c :: stripParenGo f cs

/-- Embedding of `rx.ReplaceAllString(result.Title, "")` with
`rx = \s\(\d+\)` (main.go:427-428). -/
def normalizeTitle (s : String) : String :=
  ⟨stripParenGo s.data.length s.data⟩

/-- True when the regex `\s\(\d+\)` matches somewhere in the list. -/
def hasMatchAux : List Char → Bool
  | [] => false
  | c :: cs => (matchAt (c :: cs)).isSome || hasMatchAux cs

/-- Lexicographic comparison (less-or-equal) of char lists by codepoint, the
semantics of the Go string comparison used by the sort at main.go:177. -/
def clLe : List Char → List Char → Bool
  | [], _ => true
  | _ :: _, [] => false
  | a :: as, b :: bs =>
    if a.toNat < b.toNat then true
    else if b.toNat < a.toNat then false
    else clLe as bs

/-- The Go struct `Album` (main.go:42). -/
structure Album where
  title : String
deriving DecidableEq, Repr

/-- One item of `SpotifySearchResponse.Albums.Items` (main.go:63-75),
restricted to the fields the code reads. -/
structure SpotifyAlbumItem where
  artists : List String
  name : String
  releaseDate : String
  href : String
deriving DecidableEq, Repr

/-- The Go struct `DiscogsSearchResult` (main.go:77-89), restricted to the
fields the filter reads; `communityHave` is `Community.Have`. -/
structure DiscogsSearchResult where
  title : String
  communityHave : Nat
  format : List String
  year : String
  style : List String
  artist : List String
  masterURL : String
deriving DecidableEq, Repr

/-- Embedding of `isReissueOrRemaster` (main.go:472-479). -/
def isReissueOrRemaster (format : List String) : Bool :=
  format.any fun f => f == "Reissue" || f == "Remastered"

/-- The two style-match guards of `searchDiscogsForAlbums` (main.go:387-394):
true when the release is skipped by them. With exactly one style tag the
release is skipped when that tag does not end in the target style; with two
or more tags it is skipped when neither of the first two ends in the target
style; with no tags it is not skipped. -/
def styleSkip (style : String) : List String → Bool
  | [] => false
  | [s0] => !(goEndsWith s0 style)
  | s0 :: s1 :: _ => !(goEndsWith s0 style) && !(goEndsWith s1 style)

/-- The exclusion test of main.go:396-404: some style tag of the release
contains some excluded-style substring. -/
def hasExcludedStyle (excludedStyles styles : List String) : Bool :=
  styles.any fun st => excludedStyles.any fun exc => goContains st exc

/-- Embedding of the per-page result loop of `searchDiscogsForAlbums`
(main.go:384-436). State: the list of results still to scan and the seen-title
set `albumsSeen` (main.go:361), threaded as a list. Returns the albums sent to
the channel, in order, and the final seen set. An exclusion hit executes
`break RESULTS` (main.go:401), which exits the labelled results loop: the
function returns at once, forwarding nothing further from this page. The
master-release year lookup is the parameter `masterYear`. -/
def processResults (excludedStyles : List String) (style year : String)
    (masterYear : String → String) :
    List DiscogsSearchResult → List String → List Album × List String
  | [], albumsSeen => ([], albumsSeen)
  | result :: rest, albumsSeen =>
    if styleSkip style result.style then
      processResults excludedStyles style year masterYear rest albumsSeen
    else if hasExcludedStyle excludedStyles result.style then
      ([], albumsSeen)
    else if result.communityHave < 10 then
      processResults excludedStyles style year masterYear rest albumsSeen
    else if isReissueOrRemaster result.format then
      processResults excludedStyles style year masterYear rest albumsSeen
    else if result.masterURL != "" && masterYear result.masterURL != year then
      processResults excludedStyles style year masterYear rest albumsSeen
    else if albumsSeen.contains (normalizeTitle result.title) then
      processResults excludedStyles style year masterYear rest albumsSeen
    else
      (Album.mk (normalizeTitle result.title)
          :: (processResults excludedStyles style year masterYear rest
              (normalizeTitle result.title :: albumsSeen)).1,
        (processResults excludedStyles style year masterYear rest
            (normalizeTitle result.title :: albumsSeen)).2)

/-- Embedding of `searchDiscogsForAlbums` (main.go:355-444) over an explicit
list of result pages (the pagination loop). The seen-title set persists across
pages; after a `break RESULTS` the next page is still fetched. -/
def searchDiscogsForAlbums (excludedStyles : List String) (style year : String)
    (masterYear : String → String) :
    List (List DiscogsSearchResult) → List String → List Album
  | [], _ => []
  | page :: pages, albumsSeen =>
    (processResults excludedStyles style year masterYear page albumsSeen).1
      ++ searchDiscogsForAlbums excludedStyles style year masterYear pages
          (processResults excludedStyles style year masterYear page albumsSeen).2

/-- The album-selection loop of `addAlbumToSpotifyPlaylist` (main.go:288-298):
walk the search results; skip an item when a year is given and the release
date does not start with it; otherwise read `Artists[0]` (a panic, `none`,
when the artists list is empty) and take the `Href` of the first item whose
first artist and name both fuzzy-match. `some ""` means the loop ended with
`albumUrl` still empty (main.go:299). -/
def findAlbumUrl (sim : String → String → Bool) (year artistName albumName : String) :
    List SpotifyAlbumItem → Option String
  | [] => some ""
  | it :: rest =>
    if year != "" && !(goStartsWith it.releaseDate year) then
      findAlbumUrl sim year artistName albumName rest
    else
      match it.artists with
      | [] => none
      | a0 :: _ =>
        if sim a0 artistName && sim it.name albumName then some it.href
        else findAlbumUrl sim year artistName albumName rest

/-- The selection condition of main.go:288-298 as a single predicate: the
release date starts with the year (when a year is given) and the first artist
name and the album name both fuzzy-match. -/
def albumMatches (sim : String → String → Bool) (year artistName albumName : String)
    (it : SpotifyAlbumItem) : Bool :=
  (year == "" || goStartsWith it.releaseDate year)
    && sim (it.artists.headD "") artistName && sim it.name albumName

/-- Embedding of `addAlbumToSpotifyPlaylist` (main.go:255-353). Parameters:
`searchItems` is the Spotify search response for the album title, `getTracks`
maps an album URL to the track URIs of that album, `currentTracks` is the
seen-track set passed in (the code reads it and never writes to it). Returns
`some uris` with the list of track URIs submitted to the playlist-append call
(`[]` when nothing is submitted: no result, no match, or no new track), and
`none` for a panic. The title is split on `" - "` after the empty-results
check (main.go:277-286); index 1 of the parts is read unguarded, so a title
without the separator panics. Submitted URIs are the fetched track URIs with
the ones already in `currentTracks` filtered out (main.go:322-328); the set
`currentTracks` is not updated afterwards. -/
def addAlbumToSpotifyPlaylist (sim : String → String → Bool)
    (searchItems : List SpotifyAlbumItem) (getTracks : String → List String)
    (currentTracks : List String) (album : Album) (year : String) :
    Option (List String) :=
  match searchItems with
  | [] => some []
  | _ :: _ =>
    match goSplitDash album.title with
    | artistName :: albumName :: _ =>
      match findAlbumUrl sim year artistName albumName searchItems with
      | none => none
      | some albumUrl =>
        if albumUrl == "" then some []
        else some ((getTracks albumUrl).filter fun u => !(currentTracks.contains u))
    | _ => none

/-- Descending insertion by release date, embedding the order imposed by
`sort.Slice` with `less i j = (date i > date j)` at main.go:176-178. -/
def insertAlbumDesc (a : SpotifyAlbumItem) : List SpotifyAlbumItem → List SpotifyAlbumItem
  | [] => [a]
  | b :: bs =>
    if clLe b.releaseDate.data a.releaseDate.data then a :: b :: bs
    else b :: insertAlbumDesc a bs

/-- Sorting of the search items by release date descending (main.go:176-178).
The Go sort is unstable, so ties are in an unspecified order; this embedding
fixes one order consistent with the comparator. -/
def sortAlbumsByReleaseDate : List SpotifyAlbumItem → List SpotifyAlbumItem
  | [] => []
  | a :: as => insertAlbumDesc a (sortAlbumsByReleaseDate as)

/-- The ordering imposed on two search items by the comparator of
main.go:176-178: `releaseDateGe a b` when the release date of `a` is at least
the release date of `b` in codepoint-lexicographic order. -/
def releaseDateGe (a b : SpotifyAlbumItem) : Prop :=
  clLe b.releaseDate.data a.releaseDate.data = true

/-- The fuzzy-match loop of `getLatestAlbumFromBand` (main.go:182-186):
first item of the (sorted) list whose first artist fuzzy-matches the query
artist; `none` is the panic on an empty artists list, `some none` means the
loop found no match. -/
def findFuzzyArtistAlbum (sim : String → String → Bool) (artist : String) :
    List SpotifyAlbumItem → Option (Option String)
  | [] => some none
  | it :: rest =>
    match it.artists with
    | [] => none
    | a0 :: _ =>
      if sim a0 artist then some (some it.name)
      else findFuzzyArtistAlbum sim artist rest

/-- Embedding of `getLatestAlbumFromBand` (main.go:151-188): sort the search
items by release date descending, return `""` when there are none, otherwise
the name of the first sorted item whose first artist fuzzy-matches, falling
back to the name of the head of the sorted list. `none` is a panic. -/
def getLatestAlbumFromBand (sim : String → String → Bool)
    (items : List SpotifyAlbumItem) (artist : String) : Option String :=
  match sortAlbumsByReleaseDate items with
  | [] => some ""
  | first :: rest =>
    match findFuzzyArtistAlbum sim artist (first :: rest) with
    | none => none
    | some (some nm) => some nm
    | some none => some first.name

/-- Embedding of the retry loop of the consumer goroutine in
`syncSpotifyPlaylist` (main.go:215-227): up to `remaining` attempts starting
at attempt index `i`; a successful attempt breaks out, a failed one sleeps 30
time-units and retries. Returns (attempts made, success, total time slept).
`attempt k` is true when the k-th resolve+append call returns no error. -/
def retryAlbum (attempt : Nat → Bool) : Nat → Nat → Nat × Bool × Nat
  | _, 0 => (0, false, 0)
  | i, Nat.succ r =>
    if attempt i then (1, true, 0)
    else
      let next := retryAlbum attempt (i + 1) r
      (next.1 + 1, next.2.1, next.2.2 + 30)

/-- One album processed by the consumer: the `for i := 0; i < 3; i++` loop of
main.go:217-225. -/
def processAlbum (attempt : Nat → Bool) : Nat × Bool × Nat :=
  retryAlbum attempt 0 3

/-- The consumer goroutine of main.go:215-227 over a list of buffered albums:
every album is processed in order, the per-album error is dropped, so the loop
runs to the end of the list whatever the outcomes. Returns each album paired
with whether its resolve+append step eventually succeeded. -/
def syncConsumeAlbums (attempts : Album → Nat → Bool) (albums : List Album) :
    List (Album × Bool) :=
  albums.map fun a => (a, (processAlbum (attempts a)).2.1)

/-- Concrete fuzzy matcher used by witnesses and counterexamples: string
equality (any `sim` is legal, the code only threads it through). -/
def exSim : String → String → Bool := fun a b => a == b

/-- Concrete search result for the album query "A - X". -/
def exItemAX : SpotifyAlbumItem := ⟨["A"], "X", "2020-01-01", "h1"⟩

/-- Concrete search result for the album query "A - Y". -/
def exItemAY : SpotifyAlbumItem := ⟨["A"], "Y", "2020-03-03", "h2"⟩

/-- Concrete track lists: album h1 has tracks t1, t2; album h2 has t2, t3. -/
def exGetTracks : String → List String :=
  fun h => if h == "h1" then ["t1", "t2"] else ["t2", "t3"]

/-- Concrete Discogs release that passes the style match for "Rock" but
carries the excluded style "Jazz". -/
def exExcluded : DiscogsSearchResult :=
  ⟨"Bad One", 50, [], "2020", ["Rock", "Jazz"], ["A"], ""⟩

/-- Concrete Discogs release that passes every filter for style "Rock". -/
def exGood : DiscogsSearchResult :=
  ⟨"Good One", 50, [], "2020", ["Rock"], ["B"], ""⟩

/-- Concrete Discogs release with an empty style list that passes every
filter. -/
def exNoStyle : DiscogsSearchResult :=
  ⟨"Styleless", 50, [], "2020", [], ["C"], ""⟩

/-! ### Helper lemmas -/

/-- When the regex matches nowhere in the list, the scanner copies the list
unchanged, for any fuel. -/
theorem stripParenGo_of_no_match :
    ∀ (f : Nat) (l : List Char), hasMatchAux l = false → stripParenGo f l = l := by
  intro f
  induction f with
  | zero => intro l _; cases l <;> rfl
  | succ f ih =>
    intro l h
    cases l with
    | nil => rfl
    | cons c cs =>
      have h2 : (matchAt (c :: cs)).isSome = false ∧ hasMatchAux cs = false := by
        simpa [hasMatchAux] using h
      have hm : matchAt (c :: cs) = none :=
        Option.not_isSome_iff_eq_none.mp (by simp [h2.1])
      simp [stripParenGo, hm, ih cs h2.2]

/-! ### C4: idempotence of title normalization -/

/-- Counterexample to C4: on the title `"a ( (1)5)"` one pass of the
normalization deletes `" (1)"` and thereby creates the fresh occurrence
`" (5)"`, so a second pass deletes more: normalization applied twice differs
from normalization applied once. -/
theorem normalizeTitle_not_idempotent :
    normalizeTitle (normalizeTitle "a ( (1)5)") ≠ normalizeTitle "a ( (1)5)" := by
  decide

/-- C4 (amended): title normalization is idempotent on every title whose
once-normalized form contains no further occurrence of the pattern
(a whitespace character, an open paren, digits, a close paren); the
counterexample `"a ( (1)5)"` shows the unrestricted claim is false. -/
theorem normalizeTitle_idempotent_of_clean_output (t : String)
    (h : hasMatchAux (normalizeTitle t).data = false) :
    normalizeTitle (normalizeTitle t) = normalizeTitle t := by
  have hs := stripParenGo_of_no_match (normalizeTitle t).data.length (normalizeTitle t).data h
  show (⟨stripParenGo (normalizeTitle t).data.length (normalizeTitle t).data⟩ : String)
      = normalizeTitle t
  rw [hs]

/-- Witness for C4 (amended) at the title `"Album (2)"`. -/
theorem normalizeTitle_idempotent_of_clean_output_witness :
    hasMatchAux (normalizeTitle "Album (2)").data = false
      ∧ normalizeTitle (normalizeTitle "Album (2)") = normalizeTitle "Album (2)" :=
  ⟨by decide, normalizeTitle_idempotent_of_clean_output "Album (2)" (by decide)⟩

/-! ### C5: the style match inspects at most the first two tags -/

/-- C5: a release with exactly one style tag passes the style match iff that
tag ends in the target style; a release with two or more tags passes iff the
first or the second tag ends in the target style; the tags beyond the second
never affect the outcome (`styleSkip` is the skip condition of
main.go:387-394, so passing is `styleSkip = false`). -/
theorem styleSkip_first_two_tags (target s0 s1 : String) (rest rest2 : List String) :
    (styleSkip target [s0] = false ↔ goEndsWith s0 target = true)
    ∧ (styleSkip target (s0 :: s1 :: rest) = false
        ↔ (goEndsWith s0 target || goEndsWith s1 target) = true)
    ∧ styleSkip target (s0 :: s1 :: rest) = styleSkip target (s0 :: s1 :: rest2) := by
  refine ⟨?_, ?_, rfl⟩
  · cases h : goEndsWith s0 target <;> simp [styleSkip, h]
  · cases h : goEndsWith s0 target <;> cases h1 : goEndsWith s1 target <;>
      simp [styleSkip, h, h1]

/-! ### C6: retry policy of the consumer goroutine -/

/-- C6: each album taken from the channel is attempted at most 3 times and
attempts stop at the first success; a step that fails twice then succeeds on
the third attempt adds the album (after two 30-unit sleeps); one that fails
three times leaves the album dropped; the consumer still processes every
buffered album in order, so a per-album failure is never fatal to the run;
each failed attempt is followed by a 30-unit sleep, so a sleep separates any
two consecutive attempts of the same album. -/
theorem retry_policy (attempt : Nat → Bool) (attempts : Album → Nat → Bool)
    (albums : List Album) :
    (processAlbum attempt).1 ≤ 3
    ∧ (processAlbum attempt).2.1 = (attempt 0 || attempt 1 || attempt 2)
    ∧ (attempt 0 = true → processAlbum attempt = (1, true, 0))
    ∧ (attempt 0 = false → attempt 1 = true → processAlbum attempt = (2, true, 30))
    ∧ (attempt 0 = false → attempt 1 = false → attempt 2 = true →
        processAlbum attempt = (3, true, 60))
    ∧ (attempt 0 = false → attempt 1 = false → attempt 2 = false →
        processAlbum attempt = (3, false, 90))
    ∧ (syncConsumeAlbums attempts albums).map Prod.fst = albums := by
  refine ⟨?_, ?_, ?_, ?_, ?_, ?_, ?_⟩
  · cases h0 : attempt 0 <;> cases h1 : attempt 1 <;> cases h2 : attempt 2 <;>
      simp [processAlbum, retryAlbum, h0, h1, h2]
  · cases h0 : attempt 0 <;> cases h1 : attempt 1 <;> cases h2 : attempt 2 <;>
      simp [processAlbum, retryAlbum, h0, h1, h2]
  · intro h0; simp [processAlbum, retryAlbum, h0]
  · intro h0 h1; simp [processAlbum, retryAlbum, h0, h1]
  · intro h0 h1 h2; simp [processAlbum, retryAlbum, h0, h1, h2]
  · intro h0 h1 h2; simp [processAlbum, retryAlbum, h0, h1, h2]
  · induction albums with
    | nil => rfl
    | cons a as iha => simpa [syncConsumeAlbums] using iha

/-- Witness for C6: with attempts that fail, fail, then succeed, the album is
added on the third attempt with two sleeps; a consumer run over one album
with all attempts failing still processes that album. -/
theorem retry_policy_witness :
    processAlbum (fun i => i == 2) = (3, true, 60)
    ∧ (syncConsumeAlbums (fun _ _ => false) [Album.mk "A"]).map Prod.fst
        = [Album.mk "A"] :=
  ⟨(retry_policy (fun i => i == 2) (fun _ _ => false) [Album.mk "A"]).2.2.2.2.1
      rfl rfl rfl,
    (retry_policy (fun i => i == 2) (fun _ _ => false) [Album.mk "A"]).2.2.2.2.2.2⟩

/-! ### C2: an exclusion hit executes break RESULTS -/

/-- C2 (observed code behaviour): on a page whose first release passes the
style match but carries an excluded style, the labelled `break RESULTS` of
main.go:401 aborts the whole results loop, so the clean second release of the
same page is never forwarded; the same second release alone on a page is
forwarded. The claim (and the skip-comment and log message of
main.go:396-400) says only the offending release is rejected and the next
release of the page is evaluated normally. -/
theorem exclusion_break_aborts_page :
    processResults ["Jazz"] "Rock" "2020" (fun _ => "2020") [exExcluded, exGood] [] = ([], [])
    ∧ processResults ["Jazz"] "Rock" "2020" (fun _ => "2020") [exGood] []
        = ([Album.mk "Good One"], ["Good One"]) := by
  exact ⟨by decide, by decide⟩

/-! ### C1: the seen-track set and double submission -/

/-- Counterexample to C1: `currentTracks` is never updated after a successful
append (main.go:319-352 writes nothing into the map), so two albums of the
same run whose resolved track lists share the URI t2 both submit t2: the run
submits a track URI twice. -/
theorem overlapping_albums_resubmit_shared_uri :
    addAlbumToSpotifyPlaylist exSim [exItemAX] exGetTracks [] (Album.mk "A - X") "2020"
        = some ["t1", "t2"]
    ∧ addAlbumToSpotifyPlaylist exSim [exItemAY] exGetTracks [] (Album.mk "A - Y") "2020"
        = some ["t2", "t3"]
    ∧ "t2" ∈ (["t1", "t2"] : List String) ∧ "t2" ∈ (["t2", "t3"] : List String) := by
  exact ⟨by decide, by decide, by decide, by decide⟩

/-- C1 (amended): every track URI submitted by the playlist-append step is
absent from the seen-track set passed in, so a URI in the pre-run snapshot is
never appended; but the set is not updated after a successful append, so a
second album of the same run with an overlapping track list re-submits the
shared URIs (see the counterexample). -/
theorem submitted_uris_not_in_snapshot (sim : String → String → Bool)
    (searchItems : List SpotifyAlbumItem) (getTracks : String → List String)
    (currentTracks : List String) (album : Album) (year : String) (uris : List String)
    (h : addAlbumToSpotifyPlaylist sim searchItems getTracks currentTracks album year
        = some uris) :
    ∀ u ∈ uris, currentTracks.contains u = false := by
  intro u hu
  cases searchItems with
  | nil =>
    simp [addAlbumToSpotifyPlaylist] at h
    subst h
    simp at hu
  | cons it rest =>
    unfold addAlbumToSpotifyPlaylist at h
    split at h
    · injection h with h2
      subst h2
      simp at hu
    · split at h
      · split at h
        · exact absurd h (by simp)
        · split at h
          · injection h with h2
            subst h2
            simp at hu
          · injection h with h2
            subst h2
            have := (List.mem_filter.mp hu).2
            simpa using this
      · exact absurd h (by simp)

/-- Witness for C1 (amended): with the snapshot holding t1, the append for
"A - X" submits only t2, and t2 is not in the snapshot. -/
theorem submitted_uris_not_in_snapshot_witness :
    addAlbumToSpotifyPlaylist exSim [exItemAX] exGetTracks ["t1"] (Album.mk "A - X") "2020"
        = some ["t2"]
    ∧ (["t1"] : List String).contains "t2" = false :=
  ⟨by decide,
    submitted_uris_not_in_snapshot exSim [exItemAX] exGetTracks ["t1"]
      (Album.mk "A - X") "2020" ["t2"] (by decide) "t2" (by decide)⟩

/-! ### C10: the title split is read unguarded -/

/-- When the separator occurs nowhere in the list, the splitter returns the
single segment consisting of the accumulator and the rest of the list. -/
theorem splitSepAux_no_sep (sep : List Char) :
    ∀ (f : Nat) (l acc : List Char), isInfixOfCL sep l = false →
      splitSepAux sep f l acc = [acc.reverse ++ l] := by
  intro f
  induction f with
  | zero =>
    intro l acc _
    cases l with
    | nil => simp [splitSepAux]
    | cons c cs => rfl
  | succ f ih =>
    intro l acc h
    cases l with
    | nil => simp [splitSepAux]
    | cons c cs =>
      have h2 : sep.isPrefixOf (c :: cs) = false ∧ isInfixOfCL sep cs = false := by
        simpa [isInfixOfCL] using h
      simp [splitSepAux, h2.1, ih cs (c :: acc) h2.2]

/-- C10: when the streaming search returns at least one result and the album
title does not contain the separator `" - "`, the split at main.go:284 yields
a single part and the unguarded read of `albumParts[1]` panics (modelled as
`none`); with no search results the function returns before the split, so no
panic occurs. -/
theorem addAlbum_panics_without_separator (sim : String → String → Bool)
    (searchItems : List SpotifyAlbumItem) (getTracks : String → List String)
    (currentTracks : List String) (album : Album) (year : String)
    (hres : searchItems ≠ [])
    (hsep : goContains album.title " - " = false) :
    addAlbumToSpotifyPlaylist sim searchItems getTracks currentTracks album year = none := by
  have hsplit : goSplitDash album.title = [⟨album.title.data⟩] := by
    have h0 : isInfixOfCL [' ', '-', ' '] album.title.data = false := hsep
    simp [goSplitDash, goSplitOn, splitSepAux_no_sep, h0]
  cases searchItems with
  | nil => exact absurd rfl hres
  | cons it rest => simp [addAlbumToSpotifyPlaylist, hsplit]

/-- Witness for C10 at the title `"NoSeparator"` with one search result. -/
theorem addAlbum_panics_without_separator_witness :
    addAlbumToSpotifyPlaylist exSim [exItemAX] exGetTracks [] (Album.mk "NoSeparator") "" = none :=
  addAlbum_panics_without_separator exSim [exItemAX] exGetTracks []
    (Album.mk "NoSeparator") "" (by decide) (by decide)

/-! ### C3: an absent or empty exclusion flag blocks every styled release -/

/-- The empty list is an infix of every list. -/
theorem isInfixOfCL_nil : ∀ l : List Char, isInfixOfCL [] l = true := by
  intro l
  cases l <;> rfl

/-- Every string contains the empty string as a substring. -/
theorem goContains_empty_sub (s : String) : goContains s "" = true :=
  isInfixOfCL_nil s.data

/-- With the excluded-styles list built from the empty flag, any release with
at least one style tag hits the exclusion test. -/
theorem hasExcludedStyle_of_empty_flag (st : String) (rest : List String) :
    hasExcludedStyle (goSplitComma "") (st :: rest) = true := by
  have h := goContains_empty_sub st
  have he : goSplitComma "" = [""] := rfl
  rw [he]
  simp [hasExcludedStyle, h]

/-- Every album forwarded by one result page under the empty exclusion flag
comes from a release whose style list is empty. -/
theorem processResults_empty_flag_styled (style year : String) (my : String → String) :
    ∀ (results : List DiscogsSearchResult) (seen : List String) (album : Album),
      album ∈ (processResults (goSplitComma "") style year my results seen).1 →
      ∃ r ∈ results, r.style = [] ∧ album.title = normalizeTitle r.title := by
  intro results
  induction results with
  | nil =>
    intro seen album h
    simp [processResults] at h
  | cons result rest ih =>
    intro seen album h
    unfold processResults at h
    by_cases h1 : styleSkip style result.style = true
    · rw [if_pos h1] at h
      obtain ⟨r, hr, h2, h3⟩ := ih seen album h
      exact ⟨r, List.mem_cons_of_mem _ hr, h2, h3⟩
    · rw [if_neg h1] at h
      cases hst : result.style with
      | cons st srest =>
        rw [if_pos (by rw [hst]; exact hasExcludedStyle_of_empty_flag st srest)] at h
        simp at h
      | nil =>
        rw [if_neg (by rw [hst]; simp [hasExcludedStyle])] at h
        by_cases h3 : result.communityHave < 10
        · rw [if_pos h3] at h
          obtain ⟨r, hr, h4, h5⟩ := ih seen album h
          exact ⟨r, List.mem_cons_of_mem _ hr, h4, h5⟩
        · rw [if_neg h3] at h
          by_cases h4 : isReissueOrRemaster result.format = true
          · rw [if_pos h4] at h
            obtain ⟨r, hr, h5, h6⟩ := ih seen album h
            exact ⟨r, List.mem_cons_of_mem _ hr, h5, h6⟩
          · rw [if_neg h4] at h
            by_cases h5 : (result.masterURL != "" && my result.masterURL != year) = true
            · rw [if_pos h5] at h
              obtain ⟨r, hr, h6, h7⟩ := ih seen album h
              exact ⟨r, List.mem_cons_of_mem _ hr, h6, h7⟩
            · rw [if_neg h5] at h
              by_cases h6 : seen.contains (normalizeTitle result.title) = true
              · rw [if_pos h6] at h
                obtain ⟨r, hr, h7, h8⟩ := ih seen album h
                exact ⟨r, List.mem_cons_of_mem _ hr, h7, h8⟩
              · rw [if_neg h6] at h
                rcases List.mem_cons.mp h with h | h
                · exact ⟨result, List.mem_cons_self _ _, hst, by rw [h]⟩
                · obtain ⟨r, hr, h7, h8⟩ := ih _ album h
                  exact ⟨r, List.mem_cons_of_mem _ hr, h7, h8⟩

/-- C3: the excluded-styles list built by splitting the empty flag on `","`
is `[""]`; since the empty string is a substring of every style tag, in
style/year mode without an exclusion flag every release carrying at least one
style tag hits the exclusion branch, so every album forwarded by the whole
run comes from a release whose style list is empty. -/
theorem no_styled_release_forwarded_without_flag (style year : String)
    (my : String → String) (pages : List (List DiscogsSearchResult))
    (seen : List String) (album : Album)
    (h : album ∈ searchDiscogsForAlbums (goSplitComma "") style year my pages seen) :
    goSplitComma "" = [""]
    ∧ ∃ page, page ∈ pages
        ∧ ∃ r ∈ page, r.style = [] ∧ album.title = normalizeTitle r.title := by
  refine ⟨rfl, ?_⟩
  induction pages generalizing seen with
  | nil => simp [searchDiscogsForAlbums] at h
  | cons page ps ih =>
    unfold searchDiscogsForAlbums at h
    rcases List.mem_append.mp h with h | h
    · obtain ⟨r, hr, h1, h2⟩ := processResults_empty_flag_styled style year my page seen album h
      exact ⟨page, List.mem_cons_self _ _, r, hr, h1, h2⟩
    · obtain ⟨pg, hpg, hrest⟩ := ih _ h
      exact ⟨pg, List.mem_cons_of_mem _ hpg, hrest⟩

/-- Witness for C3: a run whose page holds a release with no style tags and a
styled release forwards the style-less one, and the theorem locates its
source release. -/
theorem no_styled_release_forwarded_without_flag_witness :
    goSplitComma "" = [""]
    ∧ ∃ page, page ∈ [[exNoStyle, exGood]]
        ∧ ∃ r ∈ page, r.style = []
            ∧ (Album.mk "Styleless").title = normalizeTitle r.title :=
  no_styled_release_forwarded_without_flag "Rock" "2020" (fun _ => "2020")
    [[exNoStyle, exGood]] [] (Album.mk "Styleless") (by decide)

/-! ### C8: per-run deduplication of normalized titles -/

/-- The seen-title set only grows while a page is scanned. -/
theorem processResults_seen_mono (exc : List String) (style year : String)
    (my : String → String) :
    ∀ (results : List DiscogsSearchResult) (seen : List String) (x : String),
      x ∈ seen → x ∈ (processResults exc style year my results seen).2 := by
  intro results
  induction results with
  | nil =>
    intro seen x hx
    simpa [processResults] using hx
  | cons result rest ih =>
    intro seen x hx
    unfold processResults
    by_cases h1 : styleSkip style result.style = true
    · rw [if_pos h1]; exact ih seen x hx
    · rw [if_neg h1]
      by_cases h2 : hasExcludedStyle exc result.style = true
      · rw [if_pos h2]; exact hx
      · rw [if_neg h2]
        by_cases h3 : result.communityHave < 10
        · rw [if_pos h3]; exact ih seen x hx
        · rw [if_neg h3]
          by_cases h4 : isReissueOrRemaster result.format = true
          · rw [if_pos h4]; exact ih seen x hx
          · rw [if_neg h4]
            by_cases h5 : (result.masterURL != "" && my result.masterURL != year) = true
            · rw [if_pos h5]; exact ih seen x hx
            · rw [if_neg h5]
              by_cases h6 : seen.contains (normalizeTitle result.title) = true
              · rw [if_pos h6]; exact ih seen x hx
              · rw [if_neg h6]
                exact ih _ x (List.mem_cons_of_mem _ hx)

/-- Page-level invariant: every album forwarded from a page has a title that
was not yet seen and is recorded in the final seen set, and the titles
forwarded from the page are pairwise distinct. -/
theorem processResults_out_spec (exc : List String) (style year : String)
    (my : String → String) :
    ∀ (results : List DiscogsSearchResult) (seen : List String),
      (∀ a ∈ (processResults exc style year my results seen).1,
          a.title ∉ seen ∧ a.title ∈ (processResults exc style year my results seen).2)
      ∧ ((processResults exc style year my results seen).1.map Album.title).Nodup := by
  intro results
  induction results with
  | nil =>
    intro seen
    constructor
    · intro a ha
      simp [processResults] at ha
    · simp [processResults]
  | cons result rest ih =>
    intro seen
    unfold processResults
    by_cases h1 : styleSkip style result.style = true
    · rw [if_pos h1]; exact ih seen
    · rw [if_neg h1]
      by_cases h2 : hasExcludedStyle exc result.style = true
      · rw [if_pos h2]
        constructor
        · intro a ha
          simp at ha
        · simp
      · rw [if_neg h2]
        by_cases h3 : result.communityHave < 10
        · rw [if_pos h3]; exact ih seen
        · rw [if_neg h3]
          by_cases h4 : isReissueOrRemaster result.format = true
          · rw [if_pos h4]; exact ih seen
          · rw [if_neg h4]
            by_cases h5 : (result.masterURL != "" && my result.masterURL != year) = true
            · rw [if_pos h5]; exact ih seen
            · rw [if_neg h5]
              by_cases h6 : seen.contains (normalizeTitle result.title) = true
              · rw [if_pos h6]; exact ih seen
              · rw [if_neg h6]
                have hTnot : normalizeTitle result.title ∉ seen := by simpa using h6
                constructor
                · intro a ha
                  rcases List.mem_cons.mp ha with h | h
                  · subst h
                    refine ⟨hTnot, ?_⟩
                    exact processResults_seen_mono exc style year my rest _ _
                      (List.mem_cons_self _ _)
                  · obtain ⟨hnot, hin⟩ := (ih (normalizeTitle result.title :: seen)).1 a h
                    exact ⟨fun hmem => hnot (List.mem_cons_of_mem _ hmem), hin⟩
                · rw [List.map_cons]
                  rw [List.nodup_cons]
                  constructor
                  · intro hmem
                    obtain ⟨b, hb, hbt⟩ := List.mem_map.mp hmem
                    have := ((ih (normalizeTitle result.title :: seen)).1 b hb).1
                    exact this (by rw [hbt]; exact List.mem_cons_self _ _)
                  · exact (ih (normalizeTitle result.title :: seen)).2

/-- C8: over a whole run (any sequence of pages, the seen-title set threaded
across them), each normalized title is forwarded at most once, and never one
already in the initial seen set: of two passing releases with equal
normalized titles only the first-encountered one is forwarded. -/
theorem forwarded_titles_unique (exc : List String) (style year : String)
    (my : String → String) :
    ∀ (pages : List (List DiscogsSearchResult)) (seen : List String),
      ((searchDiscogsForAlbums exc style year my pages seen).map Album.title).Nodup
      ∧ ∀ a ∈ searchDiscogsForAlbums exc style year my pages seen, a.title ∉ seen := by
  intro pages
  induction pages with
  | nil =>
    intro seen
    simp [searchDiscogsForAlbums]
  | cons page ps ih =>
    intro seen
    unfold searchDiscogsForAlbums
    obtain ⟨hmem, hnd⟩ := processResults_out_spec exc style year my page seen
    obtain ⟨ihnd, ihmem⟩ := ih (processResults exc style year my page seen).2
    constructor
    · rw [List.map_append]
      refine List.Nodup.append hnd ihnd ?_
      intro t ht1 ht2
      obtain ⟨a, ha, rfl⟩ := List.mem_map.mp ht1
      obtain ⟨b, hb, hba⟩ := List.mem_map.mp ht2
      exact ihmem b hb (by rw [hba]; exact (hmem a ha).2)
    · intro a ha
      rcases List.mem_append.mp ha with h | h
      · exact (hmem a h).1
      · intro hseen
        exact ihmem a h (processResults_seen_mono exc style year my page seen a.title hseen)

/-- Witness for C8: two pages both carrying the release "Good One" forward it
exactly once (the seen set persists across pages), and the forwarded title was
not in the initial seen set. -/
theorem forwarded_titles_unique_witness :
    ((searchDiscogsForAlbums ["Jazz"] "Rock" "2020" (fun _ => "2020")
        [[exGood], [exGood]] ["Z"]).map Album.title).Nodup
    ∧ (Album.mk "Good One").title ∉ (["Z"] : List String) :=
  ⟨(forwarded_titles_unique ["Jazz"] "Rock" "2020" (fun _ => "2020")
      [[exGood], [exGood]] ["Z"]).1,
    (forwarded_titles_unique ["Jazz"] "Rock" "2020" (fun _ => "2020")
      [[exGood], [exGood]] ["Z"]).2 (Album.mk "Good One") (by decide)⟩

/-! ### C7: resolver selection and the non-error skip -/

/-- The selection loop of main.go:288-298 picks exactly the first search item
satisfying `albumMatches`, returning its `Href` (and `""` when none does),
provided every item has a nonempty artists list (otherwise the loop panics on
`Artists[0]`). -/
theorem findAlbumUrl_eq_find (sim : String → String → Bool)
    (year artistName albumName : String) :
    ∀ (items : List SpotifyAlbumItem), (∀ it ∈ items, it.artists ≠ []) →
      findAlbumUrl sim year artistName albumName items
        = some (((items.find? (albumMatches sim year artistName albumName)).map
            (fun it => it.href)).getD "") := by
  intro items
  induction items with
  | nil => intro _; rfl
  | cons it rest ih =>
    intro hart
    have hrest : ∀ x ∈ rest, x.artists ≠ [] :=
      fun x hx => hart x (List.mem_cons_of_mem _ hx)
    obtain ⟨a0, as, has⟩ : ∃ a0 as, it.artists = a0 :: as := by
      cases h : it.artists with
      | nil => exact absurd h (hart it (List.mem_cons_self _ _))
      | cons a0 as => exact ⟨a0, as, rfl⟩
    unfold findAlbumUrl
    by_cases hy : (year != "" && !(goStartsWith it.releaseDate year)) = true
    · rw [if_pos hy]
      obtain ⟨hya, hyb⟩ := Bool.and_eq_true _ _ |>.mp hy
      have h1 : (year == "") = false := by
        cases hq : (year == "") <;> simp [bne, hq] at hya ⊢
      have h2 : goStartsWith it.releaseDate year = false := by
        cases hq : goStartsWith it.releaseDate year <;> simp [hq] at hyb ⊢
      have hm : albumMatches sim year artistName albumName it = false := by
        simp [albumMatches, h1, h2]
      rw [List.find?_cons_of_neg _ (by simp [hm])]
      exact ih hrest
    · rw [if_neg hy]
      have hyok : (year == "" || goStartsWith it.releaseDate year) = true := by
        cases hq : (year == "") with
        | true => simp
        | false =>
          cases hs : goStartsWith it.releaseDate year with
          | true => simp
          | false => exact absurd (by simp [bne, hq, hs]) hy
      simp only [has]
      by_cases hsim : (sim a0 artistName && sim it.name albumName) = true
      · rw [if_pos hsim]
        obtain ⟨hs1, hs2⟩ := Bool.and_eq_true _ _ |>.mp hsim
        have hm : albumMatches sim year artistName albumName it = true := by
          simp [albumMatches, has, hyok, hs1, hs2]
        rw [List.find?_cons_of_pos _ hm]
        rfl
      · rw [if_neg hsim]
        have hm : albumMatches sim year artistName albumName it = false := by
          cases hq1 : sim a0 artistName with
          | false => simp [albumMatches, has, hq1]
          | true =>
            cases hq2 : sim it.name albumName with
            | false => simp [albumMatches, has, hq1, hq2]
            | true => exact absurd (by simp [hq1, hq2]) hsim
        rw [List.find?_cons_of_neg _ (by simp [hm])]
        exact ih hrest

/-- Reduction of `addAlbumToSpotifyPlaylist` once the search response is
nonempty and the title split is known. -/
theorem addAlbum_cons_reduce (sim : String → String → Bool)
    (it : SpotifyAlbumItem) (rest : List SpotifyAlbumItem)
    (getTracks : String → List String) (currentTracks : List String)
    (album : Album) (year artistName albumName : String) (restParts : List String)
    (hsplit : goSplitDash album.title = artistName :: albumName :: restParts) :
    addAlbumToSpotifyPlaylist sim (it :: rest) getTracks currentTracks album year
      = match findAlbumUrl sim year artistName albumName (it :: rest) with
        | none => none
        | some albumUrl =>
          if albumUrl == "" then some []
          else some ((getTracks albumUrl).filter fun u => !(currentTracks.contains u)) := by
  unfold addAlbumToSpotifyPlaylist
  rw [hsplit]

/-- C7: when the streaming search returns nothing, the resolver returns a
non-error skip and submits nothing; when it returns results (with candidate
title split into artist and album name), the resolver selects exactly the
first result whose release date starts with the target year (when given) and
whose first artist and name both fuzzy-match; when no result satisfies the
condition it returns a non-error skip and submits nothing; when result `it`
is selected the submitted URIs are the fetched tracks of `it.href` minus the
snapshot. The artists-nonempty and href-nonempty hypotheses keep the run off
the panic path and off the empty-href sentinel of `albumUrl == ""`. -/
theorem resolver_first_match (sim : String → String → Bool)
    (searchItems : List SpotifyAlbumItem) (getTracks : String → List String)
    (currentTracks : List String) (album : Album) (year : String)
    (hart : ∀ it ∈ searchItems, it.artists ≠ [])
    (hhref : ∀ it ∈ searchItems, it.href ≠ "") :
    (searchItems = [] →
      addAlbumToSpotifyPlaylist sim searchItems getTracks currentTracks album year = some [])
    ∧ ∀ artistName albumName restParts,
        goSplitDash album.title = artistName :: albumName :: restParts →
        (findAlbumUrl sim year artistName albumName searchItems
          = some (((searchItems.find? (albumMatches sim year artistName albumName)).map
              (fun it => it.href)).getD ""))
        ∧ (searchItems.find? (albumMatches sim year artistName albumName) = none →
            addAlbumToSpotifyPlaylist sim searchItems getTracks currentTracks album year
              = some [])
        ∧ ∀ it, searchItems.find? (albumMatches sim year artistName albumName) = some it →
            addAlbumToSpotifyPlaylist sim searchItems getTracks currentTracks album year
              = some ((getTracks it.href).filter fun u => !(currentTracks.contains u)) := by
  constructor
  · intro he
    subst he
    rfl
  · intro artistName albumName restParts hsplit
    have hfind := findAlbumUrl_eq_find sim year artistName albumName searchItems hart
    refine ⟨hfind, ?_, ?_⟩
    · intro hnone
      cases searchItems with
      | nil => rfl
      | cons it rest =>
        rw [hnone] at hfind
        rw [addAlbum_cons_reduce sim it rest getTracks currentTracks album year
          artistName albumName restParts hsplit, hfind]
        rfl
    · intro it hsome
      have hmem := List.mem_of_find?_eq_some hsome
      have hne : (it.href == "") = false :=
        beq_eq_false_iff_ne.mpr (hhref it hmem)
      cases searchItems with
      | nil => simp at hmem
      | cons j rest =>
        rw [hsome] at hfind
        rw [addAlbum_cons_reduce sim j rest getTracks currentTracks album year
          artistName albumName restParts hsplit, hfind]
        show (if it.href == "" then some []
            else some ((getTracks it.href).filter fun u => !(currentTracks.contains u)))
          = some ((getTracks it.href).filter fun u => !(currentTracks.contains u))
        simp [hne]

/-- Witness for C7: one matching search result is selected and its new tracks
are submitted. -/
theorem resolver_first_match_witness :
    addAlbumToSpotifyPlaylist exSim [exItemAX] exGetTracks [] (Album.mk "A - X") "2020"
      = some ((exGetTracks exItemAX.href).filter
          fun u => !(([] : List String).contains u)) :=
  ((resolver_first_match exSim [exItemAX] exGetTracks [] (Album.mk "A - X") "2020"
      (by decide) (by decide)).2 "A" "X" [] (by decide)).2.2 exItemAX (by decide)

/-! ### C9: getLatestAlbumFromBand -/

/-- The lexicographic comparison is reflexive. -/
theorem clLe_refl : ∀ l : List Char, clLe l l = true := by
  intro l
  induction l with
  | nil => rfl
  | cons x xs ih =>
    simp only [clLe]
    rw [if_neg (by omega), if_neg (by omega)]
    exact ih

/-- The lexicographic comparison is total. -/
theorem clLe_total : ∀ a b : List Char, clLe a b = true ∨ clLe b a = true := by
  intro a
  induction a with
  | nil => intro b; exact Or.inl rfl
  | cons x xs ih =>
    intro b
    cases b with
    | nil => exact Or.inr rfl
    | cons y ys =>
      rcases Nat.lt_trichotomy x.toNat y.toNat with h | h | h
      · left; simp only [clLe]; rw [if_pos h]
      · have e1 : clLe (x :: xs) (y :: ys) = clLe xs ys := by
          simp only [clLe]; rw [if_neg (by omega), if_neg (by omega)]
        have e2 : clLe (y :: ys) (x :: xs) = clLe ys xs := by
          simp only [clLe]; rw [if_neg (by omega), if_neg (by omega)]
        rcases ih ys with h2 | h2
        · left; rw [e1]; exact h2
        · right; rw [e2]; exact h2
      · right; simp only [clLe]; rw [if_pos h]

/-- The lexicographic comparison is transitive. -/
theorem clLe_trans : ∀ a b c : List Char,
    clLe a b = true → clLe b c = true → clLe a c = true := by
  intro a
  induction a with
  | nil => intro b c _ _; rfl
  | cons x xs ih =>
    intro b c hab hbc
    cases b with
    | nil => simp [clLe] at hab
    | cons y ys =>
      cases c with
      | nil => simp [clLe] at hbc
      | cons z zs =>
        rcases Nat.lt_trichotomy x.toNat y.toNat with h1 | h1 | h1
        · rcases Nat.lt_trichotomy y.toNat z.toNat with h2 | h2 | h2
          · have h3 : x.toNat < z.toNat := h1.trans h2
            simp only [clLe]; rw [if_pos h3]
          · have h3 : x.toNat < z.toNat := by omega
            simp only [clLe]; rw [if_pos h3]
          · simp only [clLe] at hbc
            rw [if_neg (by omega), if_pos h2] at hbc
            exact absurd hbc (by simp)
        · rcases Nat.lt_trichotomy y.toNat z.toNat with h2 | h2 | h2
          · have h3 : x.toNat < z.toNat := by omega
            simp only [clLe]; rw [if_pos h3]
          · simp only [clLe] at hab hbc ⊢
            rw [if_neg (by omega), if_neg (by omega)] at hab
            rw [if_neg (by omega), if_neg (by omega)] at hbc
            rw [if_neg (by omega), if_neg (by omega)]
            exact ih ys zs hab hbc
          · simp only [clLe] at hbc
            rw [if_neg (by omega), if_pos h2] at hbc
            exact absurd hbc (by simp)
        · simp only [clLe] at hab
          rw [if_neg (by omega), if_pos h1] at hab
          exact absurd hab (by simp)

/-- Inserting keeps the multiset of items: the inserted list is a permutation
of the item consed on. -/
theorem insertAlbumDesc_perm (a : SpotifyAlbumItem) :
    ∀ l : List SpotifyAlbumItem, (insertAlbumDesc a l).Perm (a :: l) := by
  intro l
  induction l with
  | nil => exact List.Perm.refl _
  | cons b bs ih =>
    unfold insertAlbumDesc
    by_cases h : clLe b.releaseDate.data a.releaseDate.data = true
    · rw [if_pos h]
    · rw [if_neg h]
      exact (ih.cons b).trans (List.Perm.swap a b bs)

/-- The sort permutes its input. -/
theorem sortAlbums_perm : ∀ l : List SpotifyAlbumItem,
    (sortAlbumsByReleaseDate l).Perm l := by
  intro l
  induction l with
  | nil => exact List.Perm.refl _
  | cons a as ih =>
    unfold sortAlbumsByReleaseDate
    exact (insertAlbumDesc_perm a _).trans (ih.cons a)

/-- Inserting into a date-descending list keeps it date-descending. -/
theorem insertAlbumDesc_sorted (a : SpotifyAlbumItem) :
    ∀ l : List SpotifyAlbumItem, l.Pairwise releaseDateGe →
      (insertAlbumDesc a l).Pairwise releaseDateGe := by
  intro l
  induction l with
  | nil => intro _; simp [insertAlbumDesc]
  | cons b bs ih =>
    intro hp
    obtain ⟨hb, hbs⟩ := List.pairwise_cons.mp hp
    unfold insertAlbumDesc
    by_cases h : clLe b.releaseDate.data a.releaseDate.data = true
    · rw [if_pos h]
      refine List.pairwise_cons.mpr ⟨?_, hp⟩
      intro x hx
      rcases List.mem_cons.mp hx with rfl | hx
      · exact h
      · exact clLe_trans _ _ _ (hb x hx) h
    · rw [if_neg h]
      have hba : clLe a.releaseDate.data b.releaseDate.data = true := by
        rcases clLe_total a.releaseDate.data b.releaseDate.data with h2 | h2
        · exact h2
        · exact absurd h2 h
      refine List.pairwise_cons.mpr ⟨?_, ih hbs⟩
      intro x hx
      have hx2 : x ∈ a :: bs := (insertAlbumDesc_perm a bs).mem_iff.mp hx
      rcases List.mem_cons.mp hx2 with rfl | hx2
      · exact hba
      · exact hb x hx2

/-- The sort output is date-descending. -/
theorem sortAlbums_sorted : ∀ l : List SpotifyAlbumItem,
    (sortAlbumsByReleaseDate l).Pairwise releaseDateGe := by
  intro l
  induction l with
  | nil => exact List.Pairwise.nil
  | cons a as ih => exact insertAlbumDesc_sorted a _ ih

/-- The fuzzy-match loop of main.go:182-186 picks exactly the first item
whose first artist fuzzy-matches, provided every item has a nonempty artists
list. -/
theorem findFuzzy_eq_find (sim : String → String → Bool) (artist : String) :
    ∀ (l : List SpotifyAlbumItem), (∀ it ∈ l, it.artists ≠ []) →
      findFuzzyArtistAlbum sim artist l
        = some ((l.find? fun it => sim (it.artists.headD "") artist).map
            (fun it => it.name)) := by
  intro l
  induction l with
  | nil => intro _; rfl
  | cons it rest ih =>
    intro hart
    have hrest : ∀ x ∈ rest, x.artists ≠ [] :=
      fun x hx => hart x (List.mem_cons_of_mem _ hx)
    obtain ⟨a0, as, has⟩ : ∃ a0 as, it.artists = a0 :: as := by
      cases h : it.artists with
      | nil => exact absurd h (hart it (List.mem_cons_self _ _))
      | cons a0 as => exact ⟨a0, as, rfl⟩
    unfold findFuzzyArtistAlbum
    simp only [has]
    by_cases hs : sim a0 artist = true
    · rw [if_pos hs]
      have hm : sim (it.artists.headD "") artist = true := by rw [has]; exact hs
      have hfc : List.find? (fun x => sim (x.artists.headD "") artist) (it :: rest)
          = some it := by
        rw [List.find?_cons_of_pos]
        exact hm
      rw [hfc]
      rfl
    · rw [if_neg hs]
      have hm : sim (it.artists.headD "") artist = false := by
        rw [has]
        cases hq : sim a0 artist with
        | false => exact hq
        | true => exact absurd hq hs
      have hfc : List.find? (fun x => sim (x.artists.headD "") artist) (it :: rest)
          = List.find? (fun x => sim (x.artists.headD "") artist) rest := by
        rw [List.find?_cons_of_neg]
        show ¬ sim (it.artists.headD "") artist = true
        rw [hm]
        simp
      rw [hfc]
      exact ih hrest

/-- Reduction of `getLatestAlbumFromBand` once the sorted list is known. -/
theorem getLatestAlbumFromBand_cons (sim : String → String → Bool)
    (items : List SpotifyAlbumItem) (artist : String)
    (first : SpotifyAlbumItem) (rest : List SpotifyAlbumItem)
    (hsort : sortAlbumsByReleaseDate items = first :: rest) :
    getLatestAlbumFromBand sim items artist
      = match findFuzzyArtistAlbum sim artist (first :: rest) with
        | none => none
        | some (some nm) => some nm
        | some none => some first.name := by
  unfold getLatestAlbumFromBand
  rw [hsort]

/-- C9: the search items are sorted by release date descending (a permutation
of the input, pairwise in descending date order); with no albums the function
returns the empty string; otherwise the head of the sorted list has the
overall most recent date, and — when every item carries an artist — the
function returns the name of the first sorted item whose first artist
fuzzy-matches the query artist, falling back to the head of the sorted list
when none does. -/
theorem getLatestAlbumFromBand_spec (sim : String → String → Bool)
    (items : List SpotifyAlbumItem) (artist : String) :
    (sortAlbumsByReleaseDate items).Perm items
    ∧ (sortAlbumsByReleaseDate items).Pairwise releaseDateGe
    ∧ (items = [] → getLatestAlbumFromBand sim items artist = some "")
    ∧ ∀ first rest, sortAlbumsByReleaseDate items = first :: rest →
        (∀ it ∈ items, releaseDateGe first it)
        ∧ ((∀ it ∈ items, it.artists ≠ []) →
            getLatestAlbumFromBand sim items artist
              = some (((first :: rest).find?
                  (fun it => sim (it.artists.headD "") artist)).elim
                    first.name (fun it => it.name))) := by
  refine ⟨sortAlbums_perm items, sortAlbums_sorted items, ?_, ?_⟩
  · intro he
    subst he
    rfl
  · intro first rest hsort
    constructor
    · intro it hit
      have hit2 : it ∈ first :: rest := by
        rw [← hsort]
        exact (sortAlbums_perm items).mem_iff.mpr hit
      rcases List.mem_cons.mp hit2 with rfl | hit2
      · exact clLe_refl _
      · have hp := sortAlbums_sorted items
        rw [hsort] at hp
        exact (List.pairwise_cons.mp hp).1 it hit2
    · intro hart
      have hart2 : ∀ it ∈ first :: rest, it.artists ≠ [] := by
        intro it hit
        refine hart it ?_
        have : it ∈ sortAlbumsByReleaseDate items := by rw [hsort]; exact hit
        exact (sortAlbums_perm items).mem_iff.mp this
      have hf := findFuzzy_eq_find sim artist (first :: rest) hart2
      rw [getLatestAlbumFromBand_cons sim items artist first rest hsort, hf]
      cases hfind : (first :: rest).find? (fun it => sim (it.artists.headD "") artist) with
      | none => simp [hfind]
      | some it => simp [hfind]

/-- Witness for C9: of the two items with artist "A", the later-dated "Y" is
returned; the sorted head "Y" has the most recent release date. -/
theorem getLatestAlbumFromBand_spec_witness :
    (∀ it ∈ [exItemAX, exItemAY], releaseDateGe exItemAY it)
    ∧ getLatestAlbumFromBand exSim [exItemAX, exItemAY] "A"
        = some ((([exItemAY, exItemAX]).find?
            (fun it => exSim (it.artists.headD "") "A")).elim
              exItemAY.name (fun it => it.name)) := by
  have h := ((getLatestAlbumFromBand_spec exSim [exItemAX, exItemAY] "A").2.2.2
    exItemAY [exItemAX] (by decide))
  exact ⟨h.1, h.2 (by decide)⟩

end SPS
